import Mathlib

/-!
Verification development for the `nix-source` tool (src/src/main.rs).

The Rust program maintains a registry (`sources.json`) of remote sources and
refreshes their cached validators (hash, last-modified, etag) and type
classification.  Below, the program's pure logic is shallowly embedded in
Lean: HTTP responses and the two external oracle processes
(`nix-prefetch-url`, `nix hash to-sri`) are supplied through an explicit
environment record, and the on-disk JSON map is modelled as an association
list.  External library calls at the boundary (chrono RFC-2822 parsing,
mailparse content-disposition parsing, ssri integrity parsing) are modelled
as environment inputs where the program only consumes their results.
-/

deriving instance DecidableEq for Except

namespace NixSource

/-- `SourceType` from main.rs: either a tarball to unpack or a plain file. -/
inductive SourceType where
  | Tarball
  | File
deriving DecidableEq, Repr

/-- Model of `chrono::DateTime<FixedOffset>`: an instant (seconds since the
Unix epoch) together with a fixed offset east of UTC in seconds. -/
structure DateTime where
  epochSecs : Int
  offsetSecs : Int
deriving DecidableEq, Repr

/-- Model of `url::Url`: the serialized form plus the path segments
(`Url::path_segments` returns `None` for cannot-be-a-base URLs). -/
structure Url where
  raw : String
  pathSegments : Option (List String)
deriving DecidableEq, Repr

/-- The `Source` struct from main.rs.  The `ssri::Integrity` hash is kept as
its SRI string. -/
structure Source where
  hash : Option String
  url : Url
  last_modified : Option DateTime
  etag : Option String
  ty : Option SourceType
deriving DecidableEq, Repr

/-- `Source::new`: only the URL populated. -/
def Source.new (u : Url) : Source :=
  { hash := none, url := u, last_modified := none, etag := none, ty := none }

/-! ## Filename sanitization (`sanitize_file_name`, main.rs lines 76-93) -/

/-- The character set accepted unchanged by the `match` arm in
`sanitize_file_name` (main.rs line 89). -/
def allowedChar (c : Char) : Bool :=
  ('0' ≤ c && c ≤ '9') || ('a' ≤ c && c ≤ 'z') || ('A' ≤ c && c ≤ 'Z') ||
  c = '+' || c = '-' || c = '.' || c = '_' || c = '?' || c = '='

/-- The per-character replacement applied to every character after the
first (main.rs lines 88-91). -/
def sanitizeChar (c : Char) : Char :=
  if allowedChar c then c else '_'

/-- Core of `sanitize_file_name` on character lists: empty input yields
"source"; the first character is replaced by an underscore only when it is a
dot, and is otherwise kept verbatim; the remaining characters go through
`sanitizeChar`. -/
def sanitizeCore : List Char → List Char
  | [] => "source".data
  | c :: rest => (if c = '.' then '_' else c) :: rest.map sanitizeChar

/-- `sanitize_file_name` from main.rs. -/
def sanitize_file_name (name : String) : String :=
  ⟨sanitizeCore name.data⟩

/-! ## `std::path::Path` extension / file-stem model

`refresh_source` classifies via `Path::extension` and `Path::file_stem`
(main.rs lines 150-159).  We model the std rules: the file name is the last
normal component; the extension is the part after the last dot of the file
name, provided the part before that dot is nonempty. -/

/-- Split a character list on a separator character (no separator yields a
single segment, faithful to iterator `split`). -/
def splitOnChar (sep : Char) : List Char → List (List Char)
  | [] => [[]]
  | c :: rest =>
    let r := splitOnChar sep rest
    if c = sep then [] :: r
    else
      match r with
      | s :: ss => (c :: s) :: ss
      | [] => [[c]]

/-- Split at the last dot: returns the parts before and after the last '.'
if one exists. -/
def splitLastDot : List Char → Option (List Char × List Char)
  | [] => none
  | c :: rest =>
    match splitLastDot rest with
    | some (b, a) => some (c :: b, a)
    | none => if c = '.' then some ([], rest) else none

/-- `Path::file_name`: the last component after '/' separators, skipping
empty and current-dir components; a parent-dir final component has no file
name. -/
def pathFileName (p : List Char) : Option (List Char) :=
  let segs := (splitOnChar '/' p).filter (fun s => s ≠ [] ∧ s ≠ ['.'])
  match segs.getLast? with
  | some s => if s = ['.', '.'] then none else some s
  | none => none

/-- `Path::extension`: the portion of the file name after its last dot,
unless that dot is the leading character (hidden files have no extension). -/
def pathExtension (p : List Char) : Option (List Char) :=
  (pathFileName p).bind fun f =>
    match splitLastDot f with
    | some (b, a) => if b = [] then none else some a
    | none => none

/-- `Path::file_stem`: the file name up to (not including) its last dot,
or the whole file name when there is no extension. -/
def pathFileStem (p : List Char) : Option (List Char) :=
  (pathFileName p).bind fun f =>
    match splitLastDot f with
    | some (b, _) => if b = [] then some f else some b
    | none => some f

/-! ## Classification resolution (main.rs lines 148-162) -/

/-- The extension test of main.rs lines 151-159: `ext` is the filename's
extension, `ext2` the extension of the file stem (both defaulting to the
empty string, as `unwrap_or_default` does on `&OsStr`); tarball iff
`ext == "zip" || ext == "tgz" || ext2 == "tar"`. -/
def inferFromFilename (f : String) : SourceType :=
  let ext := (pathExtension f.data).getD []
  let stem := (pathFileStem f.data).getD []
  let ext2 := (pathExtension stem).getD []
  if ext = "zip".data ∨ ext = "tgz".data ∨ ext2 = "tar".data then
    SourceType.Tarball
  else
    SourceType.File

/-- The full type resolution of main.rs lines 148-162: an explicit source
type always wins; otherwise infer from the filename hint; with no hint the
type is `File`. -/
def resolveType (override : Option SourceType) (filename : Option String) :
    SourceType :=
  match override with
  | some t => t
  | none =>
    match filename with
    | some f => inferFromFilename f
    | none => SourceType.File

/-! ## Trailing-newline trim (main.rs lines 178-182) -/

/-- `output.stdout` trim: drop the final byte iff it is a newline.  Bytes of
the oracle's stdout are modelled as characters. -/
def trimNlCore (l : List Char) : List Char :=
  if l.getLast? = some '\n' then l.dropLast else l

/-- Rust `str::trim` (used on the conversion oracle's output, main.rs
line 189): strip whitespace from both ends. -/
def trimCore (l : List Char) : List Char :=
  ((l.dropWhile Char.isWhitespace).reverse.dropWhile Char.isWhitespace).reverse

/-! ## RFC-2822 formatting (`chrono::DateTime::to_rfc2822`)

main.rs lines 103-108 render the cached `last_modified` with `to_rfc2822`,
assert that it ends in " +0000", strip those six bytes and append " GMT".
We reimplement chrono's formatter: civil date from days via the standard
era-based algorithm, two-digit padded day/hour/minute/second, four-digit
year, and a sign + HHMM offset suffix. -/

/-- Zero-pad a natural number to two digits. -/
def pad2 (n : Nat) : String :=
  if n < 10 then "0" ++ toString n else toString n

/-- Zero-pad a year to four digits (negative years get a leading minus). -/
def padYear (y : Int) : String :=
  if y < 0 then "-" ++ padYearAux (-y).toNat else padYearAux y.toNat
where
  padYearAux (n : Nat) : String :=
    if n < 10 then "000" ++ toString n
    else if n < 100 then "00" ++ toString n
    else if n < 1000 then "0" ++ toString n
    else toString n

/-- Days since the Unix epoch to a civil (year, month, day) date, using the
era decomposition over 400-year cycles. -/
def civilFromDays (z : Int) : Int × Nat × Nat :=
  let zs := z + 719468
  let era := zs.fdiv 146097
  let doe := (zs.fmod 146097).toNat
  let yoe := (doe - doe / 1460 + doe / 36524 - doe / 146096) / 365
  let doy := doe - (365 * yoe + yoe / 4 - yoe / 100)
  let mp := (5 * doy + 2) / 153
  let d := doy - (153 * mp + 2) / 5 + 1
  let m := if mp < 10 then mp + 3 else mp - 9
  let y : Int := (yoe : Int) + era * 400
  (if m ≤ 2 then y + 1 else y, m, d)

/-- Abbreviated weekday names, indexed with 0 = Sunday. -/
def weekdayName (i : Nat) : String :=
  (["Sun", "Mon", "Tue", "Wed", "Thu", "Fri", "Sat"].getD i "Sun")

/-- Abbreviated month names, indexed with 1 = January. -/
def monthName (m : Nat) : String :=
  (["Jan", "Feb", "Mar", "Apr", "May", "Jun", "Jul", "Aug", "Sep", "Oct",
    "Nov", "Dec"].getD (m - 1) "Jan")

/-- The date-and-time part of the RFC-2822 rendering (everything before the
offset), computed in the datetime's own fixed offset. -/
def rfc2822DateTimePart (t : DateTime) : String :=
  let loc := t.epochSecs + t.offsetSecs
  let z := loc.fdiv 86400
  let sod := (loc.fmod 86400).toNat
  let ymd := civilFromDays z
  let wd := ((z + 4).fmod 7).toNat
  weekdayName wd ++ ", " ++ pad2 ymd.2.2 ++ " " ++ monthName ymd.2.1 ++ " " ++
    padYear ymd.1 ++ " " ++ pad2 (sod / 3600) ++ ":" ++
    pad2 (sod % 3600 / 60) ++ ":" ++ pad2 (sod % 60)

/-- The `±HHMM` offset suffix of the RFC-2822 rendering. -/
def rfc2822OffsetPart (off : Int) : String :=
  let a := (if off < 0 then -off else off).toNat
  (if off < 0 then "-" else "+") ++ pad2 (a / 3600) ++ pad2 (a % 3600 / 60)

/-- `DateTime::to_rfc2822`. -/
def toRfc2822 (t : DateTime) : String :=
  rfc2822DateTimePart t ++ " " ++ rfc2822OffsetPart t.offsetSecs

/-- Rust `str::ends_with` on strings (byte slices; all characters involved
here are ASCII, so character positions coincide with byte positions). -/
def strEndsWith (a b : String) : Bool :=
  a.data.drop (a.data.length - b.data.length) == b.data

/-- Rust `str::starts_with`. -/
def strStartsWith (a b : String) : Bool :=
  a.data.take b.data.length == b.data

/-- Rust slicing `&s[..s.len() - n]`, dropping the last `n` bytes. -/
def strDropRight (s : String) (n : Nat) : String :=
  ⟨s.data.take (s.data.length - n)⟩

/-! ## The refresh environment

`refresh_source` talks to the network (`ureq::head(...).call()`), spawns
`nix-prefetch-url` and `nix hash to-sri`, and parses the final SRI string
with `ssri`.  These effects are supplied through an environment record; each
can fail, mirroring the `?` propagation in the Rust code. -/

/-- Error outcomes of one refresh / one registry command. -/
inductive Err where
  | transport
  | oracleFailure
  | utf8OrIntegrityParse
  | utcAssertFailed
  | duplicateName (n : String)
  | missingName (n : String)
deriving DecidableEq, Repr

/-- The observable parts of the HEAD response that `refresh_source` reads.
`lastModified` stands for the `Last-Modified` header already parsed by
chrono's RFC-2822 parser (`None` when the header is missing or unparsable,
matching `.and_then(|s| DateTime::parse_from_rfc2822(s).ok())`);
`cdFilename` stands for the `filename` parameter that mailparse extracts
from `Content-Disposition` (`None` when the header is missing or carries no
filename). -/
structure ProbeResult where
  status : Nat
  etagHeader : Option String
  lastModified : Option DateTime
  cdFilename : Option String
deriving DecidableEq, Repr

/-- The effectful collaborators of one refresh: the HEAD probe (given the
request headers that were set), the `nix-prefetch-url` oracle (given store
name, unpack flag, URL; returns its stdout bytes), the `nix hash to-sri`
oracle (given its argument bytes; returns its stdout bytes), and the
`ssri::Integrity` parse at the very end (`none` = parse failure). -/
structure Env where
  probe : List (String × String) → Except Err ProbeResult
  prefetch : String → Bool → String → Except Err (List Char)
  toSri : List Char → Except Err (List Char)
  parseIntegrity : String → Option String

/-- The conditional request headers built in main.rs lines 96-114: nothing
unless a prior hash exists; then `If-None-Match` from the cached etag and
`If-Modified-Since` from the cached last-modified, whose RFC-2822 rendering
is asserted to end in " +0000" (the assert failing is a panic, modelled as
`Err.utcAssertFailed`) before the offset is replaced with "GMT". -/
def conditionalHeaders (s : Source) : Except Err (List (String × String)) :=
  match s.hash with
  | none => Except.ok []
  | some _ =>
    let hs1 : List (String × String) :=
      match s.etag with
      | some e => [("If-None-Match", e)]
      | none => []
    match s.last_modified with
    | none => Except.ok hs1
    | some t =>
      let time := toRfc2822 t
      if strEndsWith time " +0000" then
        Except.ok (hs1 ++ [("If-Modified-Since", strDropRight time 6 ++ " GMT")])
      else
        Except.error Err.utcAssertFailed

/-- `refresh_source` (main.rs lines 95-198).  A 304 status short-circuits
with a clone of the input; otherwise the new etag (weak validators
rejected), last-modified, filename hint (content-disposition first, then
the URL's last path segment), resolved type, sanitized store name, and the
two oracle runs produce the replacement record. -/
def refreshSource (env : Env) (source : Source) : Except Err Source :=
  match conditionalHeaders source with
  | Except.error e => Except.error e
  | Except.ok hs =>
    match env.probe hs with
    | Except.error e => Except.error e
    | Except.ok res =>
      if res.status = 304 then
        Except.ok source
      else
        let etag := res.etagHeader.bind fun s =>
          if strStartsWith s "W/" then none else some s
        let last_modified := res.lastModified
        let filename :=
          match res.cdFilename with
          | some f => some f
          | none =>
            match source.url.pathSegments with
            | some segs => segs.getLast?
            | none => none
        let ty := resolveType source.ty filename
        let store_name := (filename.map sanitize_file_name).getD "source"
        match env.prefetch store_name (ty = SourceType.Tarball) source.url.raw with
        | Except.error e => Except.error e
        | Except.ok stdout =>
          match env.toSri (trimNlCore stdout) with
          | Except.error e => Except.error e
          | Except.ok sriOut =>
            let hashStr : String := ⟨trimCore sriOut⟩
            match env.parseIntegrity hashStr with
            | none => Except.error Err.utf8OrIntegrityParse
            | some h =>
              Except.ok { hash := some h, url := source.url, last_modified,
                          etag, ty := some ty }

/-! ## Registry commands (main.rs lines 200-296)

The `HashMap<String, Source>` registry is modelled as an association list;
its list order stands for the map's iteration order.  Each command returns
the registry that would be serialized back to disk on success, or the error
on which the command bails out (in which case the file is not rewritten). -/

/-- The registry mapping held in `sources.json`. -/
abbrev Registry := List (String × Source)

/-- `sources.sources.contains_key(name)`. -/
def containsName (reg : Registry) (n : String) : Bool :=
  reg.any fun p => p.1 = n

/-- `AddCommand::execute` (main.rs lines 200-225): bail on a duplicate
name, refresh a fresh `Source::new(url)` (note: the parsed `--type` option
is never consulted by the Rust code), and insert the refreshed record.  The
`ty` parameter is kept to mirror the command's fields. -/
def addExecute (env : Env) (name : String) (u : Url) (_ty : Option SourceType)
    (reg : Registry) : Except Err Registry :=
  if containsName reg name then
    Except.error (Err.duplicateName name)
  else
    match refreshSource env (Source.new u) with
    | Except.error e => Except.error e
    | Except.ok s => Except.ok (reg ++ [(name, s)])

/-- The per-source write-back of `UpdateCommand::execute` (main.rs lines
261-263): only `hash`, `last_modified` and `etag` are copied from the
refreshed record; `url` and `ty` keep their old values. -/
def applyUpdate (old new : Source) : Source :=
  { old with hash := new.hash, last_modified := new.last_modified,
             etag := new.etag }

/-- The update loop over all registry entries in iteration order (main.rs
lines 258-264): the first refresh failure aborts the remaining entries. -/
def updateAll (env : Env) : Registry → Except Err Registry
  | [] => Except.ok []
  | (n, s) :: rest =>
    match refreshSource env s with
    | Except.error e => Except.error e
    | Except.ok ns =>
      match updateAll env rest with
      | Except.error e => Except.error e
      | Except.ok rest2 => Except.ok ((n, applyUpdate s ns) :: rest2)

/-- `UpdateCommand::execute` (main.rs lines 236-269): with a name, exactly
that entry is refreshed (missing name bails out); without a name, all
entries are refreshed in iteration order. -/
def updateExecute (env : Env) (name : Option String) (reg : Registry) :
    Except Err Registry :=
  match name with
  | some n =>
    match reg.find? (fun p => p.1 = n) with
    | none => Except.error (Err.missingName n)
    | some p =>
      match refreshSource env p.2 with
      | Except.error e => Except.error e
      | Except.ok ns =>
        Except.ok (reg.map fun q => if q.1 = n then (q.1, applyUpdate q.2 ns) else q)
  | none => updateAll env reg

/-- `DeleteCommand::execute` (main.rs lines 281-296): removing a missing
name bails out; otherwise the entry is removed. -/
def deleteExecute (name : String) (reg : Registry) : Except Err Registry :=
  if containsName reg name then
    Except.ok (reg.filter fun p => p.1 ≠ name)
  else
    Except.error (Err.missingName name)

/-- The registry file content after a command: rewritten on success, left
as it was when the command returned an error (the Rust code only reaches
`serde_json::to_writer_pretty` after every fallible step succeeded). -/
def registryAfter (reg : Registry) (res : Except Err Registry) : Registry :=
  match res with
  | Except.ok r => r
  | Except.error _ => reg

/-! ## Helper lemmas about sanitization -/

theorem allowedChar_sanitizeChar (c : Char) :
    allowedChar (sanitizeChar c) = true := by
  unfold sanitizeChar
  split
  · assumption
  · decide

theorem sanitizeChar_idem (c : Char) :
    sanitizeChar (sanitizeChar c) = sanitizeChar c := by
  unfold sanitizeChar
  split
  next h => simp [h]
  next h => decide

theorem sanitize_data (s : String) :
    (sanitize_file_name s).data = sanitizeCore s.data := rfl

/-! ## Claim theorems -/

/-- Claim C2, counterexample: the inference (no explicit override) does not
map the filename hint "archive.tar" to the archive classification — the
code only checks `tar` at the second (compound-suffix) level, and
`archive.tar` has extension `tar` with stem `archive`, which has no second
extension. -/
theorem c2_counterexample :
    ¬ (resolveType none (some "archive.tar") = SourceType.Tarball) := by
  decide

/-- Claim C2, amended: with no explicit override, the inference maps
"archive.zip", "archive.tgz" and "archive.tar.gz" to the archive
classification (Tarball), while "archive.tar", "document.pdf" and a missing
filename hint yield the plain file classification. -/
theorem c2_amended_inference_table :
    resolveType none (some "archive.zip") = SourceType.Tarball ∧
    resolveType none (some "archive.tgz") = SourceType.Tarball ∧
    resolveType none (some "archive.tar.gz") = SourceType.Tarball ∧
    resolveType none (some "archive.tar") = SourceType.File ∧
    resolveType none (some "document.pdf") = SourceType.File ∧
    resolveType none none = SourceType.File := by
  decide

/-- Claim C3, counterexample: the sanitized output is not always made of
characters from the allowed set — the first character is only special-cased
for '.', so any other disallowed character (here '@') survives verbatim in
the output. -/
theorem c3_counterexample :
    ¬ (∀ s : String, ∀ c ∈ (sanitize_file_name s).data,
        allowedChar c = true ∨ c = '_') := by
  intro h
  have h2 := h "@" '@' (by decide)
  revert h2
  decide

/-- Claim C3, amended: the sanitized name is never empty; the empty input
yields the fixed fallback "source"; on nonempty input the first output
character is '_' when the input starts with '.' and is otherwise the
original first character (kept verbatim, whether or not it is allowed),
while every later output character lies in the allowed set. -/
theorem c3_amended_sanitize_spec (s : String) :
    sanitize_file_name s ≠ "" ∧
    (s = "" → sanitize_file_name s = "source") ∧
    (∀ c rest, s.data = c :: rest →
      (sanitize_file_name s).data.head? = some (if c = '.' then '_' else c) ∧
      ∀ x ∈ (sanitize_file_name s).data.tail, allowedChar x = true) := by
  refine ⟨?_, ?_, ?_⟩
  · intro hemp
    have hd : (sanitize_file_name s).data = [] := by
      rw [hemp]
    rw [sanitize_data] at hd
    cases hs : s.data with
    | nil => rw [hs] at hd; simp [sanitizeCore] at hd
    | cons c rest => rw [hs] at hd; simp [sanitizeCore] at hd
  · intro hemp
    have hs : s.data = [] := by rw [hemp]
    apply String.ext
    rw [sanitize_data, hs]
    rfl
  · intro c rest hs
    rw [sanitize_data, hs]
    refine ⟨rfl, ?_⟩
    intro x hx
    simp only [sanitizeCore, List.tail_cons] at hx
    obtain ⟨y, _, hy⟩ := List.mem_map.mp hx
    rw [← hy]
    exact allowedChar_sanitizeChar y

theorem c3_witness :
    "@x!" ≠ "" ∧ sanitize_file_name "" = "source" ∧
    (sanitize_file_name "@x!").data.head? = some '@' := by
  refine ⟨by decide, (c3_amended_sanitize_spec "").2.1 rfl, ?_⟩
  have h := ((c3_amended_sanitize_spec "@x!").2.2 '@' ['x', '!'] rfl).1
  simpa using h

/-- Claim C10: `sanitize_file_name` is idempotent — the first character of
a sanitized nonempty name is never '.', later characters are already in the
allowed set and are kept by a second pass, and the empty-input fallback
"source" sanitizes to itself. -/
theorem c10_sanitize_idempotent (s : String) :
    sanitize_file_name (sanitize_file_name s) = sanitize_file_name s := by
  apply String.ext
  rw [sanitize_data, sanitize_data]
  cases hs : s.data with
  | nil => decide
  | cons c rest =>
    simp only [sanitizeCore]
    have hhead : (if c = '.' then '_' else c) ≠ '.' := by
      split
      · decide
      · assumption
    rw [if_neg hhead]
    congr 1
    rw [List.map_map]
    apply List.map_congr_left
    intro a _
    exact sanitizeChar_idem a

/-- Claim C6: the trim applied to the fetch oracle's stdout removes exactly
one trailing newline — output ending in one newline loses exactly it,
output without a trailing newline is unchanged, and output with two
trailing newlines keeps one. -/
theorem c6_trim_newline :
    (∀ l : List Char, trimNlCore (l ++ ['\n']) = l) ∧
    (∀ l : List Char, l.getLast? ≠ some '\n' → trimNlCore l = l) ∧
    (∀ l : List Char, trimNlCore (l ++ ['\n', '\n']) = l ++ ['\n']) := by
  have hone : ∀ l : List Char, trimNlCore (l ++ ['\n']) = l := by
    intro l
    unfold trimNlCore
    rw [List.getLast?_concat, List.dropLast_concat]
    simp
  refine ⟨hone, ?_, ?_⟩
  · intro l h
    unfold trimNlCore
    rw [if_neg h]
  · intro l
    have : l ++ ['\n', '\n'] = (l ++ ['\n']) ++ ['\n'] := by
      simp
    rw [this, hone]

/-- Claim C4: a 304 (not-modified) probe response makes `refreshSource`
return the input Source unchanged, before any oracle is consulted. -/
theorem c4_not_modified_identity (env : Env) (s : Source)
    (hs : List (String × String)) (res : ProbeResult)
    (hh : conditionalHeaders s = Except.ok hs)
    (hp : env.probe hs = Except.ok res)
    (h304 : res.status = 304) :
    refreshSource env s = Except.ok s := by
  unfold refreshSource
  simp only [hh]
  simp only [hp]
  simp [h304]

def c4env : Env :=
  { probe := fun _ => Except.ok
      { status := 304, etagHeader := none, lastModified := none,
        cdFilename := none },
    prefetch := fun _ _ _ => Except.error Err.oracleFailure,
    toSri := fun _ => Except.error Err.oracleFailure,
    parseIntegrity := fun _ => none }

def c4src : Source := Source.new ⟨"https://example.com/a", some ["a"]⟩

theorem c4_witness : refreshSource c4env c4src = Except.ok c4src :=
  c4_not_modified_identity c4env c4src []
    { status := 304, etagHeader := none, lastModified := none,
      cdFilename := none }
    (by decide) (by decide) rfl

def c5env : Env :=
  { probe := fun _ => Except.ok
      { status := 304, etagHeader := some "W/xyz", lastModified := none,
        cdFilename := none },
    prefetch := fun _ _ _ => Except.error Err.oracleFailure,
    toSri := fun _ => Except.error Err.oracleFailure,
    parseIntegrity := fun _ => none }

def c5src : Source :=
  { hash := some "sha256-h", url := ⟨"https://example.com/a", some ["a"]⟩,
    last_modified := none, etag := some "abc", ty := some SourceType.File }

/-- Claim C5, counterexample: a 304 response may itself carry a weak ETag
header; the unchanged path ignores all response headers and keeps the
previously cached etag, so the refreshed record's etag field is not absent
after such a response. -/
theorem c5_counterexample :
    ¬ (∀ (env : Env) (s : Source) (hs2 : List (String × String))
         (res : ProbeResult) (s2 : Source),
        conditionalHeaders s = Except.ok hs2 →
        env.probe hs2 = Except.ok res →
        (∃ e, res.etagHeader = some e ∧ strStartsWith e "W/" = true) →
        refreshSource env s = Except.ok s2 →
        s2.etag = none) := by
  intro h
  have h2 := h c5env c5src [("If-None-Match", "abc")]
    { status := 304, etagHeader := some "W/xyz", lastModified := none,
      cdFilename := none }
    c5src (by decide) (by decide) ⟨"W/xyz", by decide, by decide⟩ (by decide)
  revert h2
  decide

/-- Claim C5, amended: on every response that takes the changed path
(status other than 304), a weak `ETag` (value prefixed "W/") is discarded —
the refreshed record's etag field is absent — while a strong `ETag` is
cached verbatim; on a 304 response the prior etag is simply retained. -/
theorem c5_amended_weak_etag (env : Env) (s : Source)
    (hs : List (String × String)) (res : ProbeResult) (s2 : Source)
    (hh : conditionalHeaders s = Except.ok hs)
    (hp : env.probe hs = Except.ok res)
    (hns : ¬ res.status = 304)
    (hok : refreshSource env s = Except.ok s2) :
    (∀ e, res.etagHeader = some e → strStartsWith e "W/" = true →
      s2.etag = none) ∧
    (∀ e, res.etagHeader = some e → strStartsWith e "W/" = false →
      s2.etag = some e) := by
  unfold refreshSource at hok
  simp only [hh] at hok
  simp only [hp] at hok
  rw [if_neg hns] at hok
  split at hok
  · exact Except.noConfusion hok
  · split at hok
    · exact Except.noConfusion hok
    · split at hok
      · exact Except.noConfusion hok
      · cases hok
        constructor
        · intro e he hw
          simp [he, Option.bind, hw]
        · intro e he hw
          simp [he, Option.bind, hw]

def c5wEnv : Env :=
  { probe := fun _ => Except.ok
      { status := 200, etagHeader := some "W/xyz", lastModified := none,
        cdFilename := some "f.txt" },
    prefetch := fun _ _ _ => Except.ok ['h', '\n'],
    toSri := fun _ => Except.ok "sha256-q".data,
    parseIntegrity := fun t => some t }

def c5wSrc : Source := Source.new ⟨"https://example.com/f.txt", some ["f.txt"]⟩

def c5wOut : Source :=
  { hash := some "sha256-q", url := ⟨"https://example.com/f.txt", some ["f.txt"]⟩,
    last_modified := none, etag := none, ty := some SourceType.File }

theorem c5_witness : c5wOut.etag = none :=
  (c5_amended_weak_etag c5wEnv c5wSrc []
    { status := 200, etagHeader := some "W/xyz", lastModified := none,
      cdFilename := some "f.txt" }
    c5wOut (by decide) (by decide) (by decide) (by decide)).1
    "W/xyz" rfl (by decide)

theorem find?_eq_none_of_containsName_false (reg : Registry) (n : String)
    (h : containsName reg n = false) :
    reg.find? (fun p => p.1 = n) = none := by
  induction reg with
  | nil => rfl
  | cons p rest ih =>
    simp only [containsName, List.any_cons, Bool.or_eq_false_iff] at h
    rw [List.find?_cons_of_neg]
    · exact ih (by simpa [containsName] using h.2)
    · simpa using h.1

/-- Claim C7: a duplicate name on add, and a missing name on delete or
single-source update, each abort with the corresponding error before any
mutation, so the registry file content is left exactly as it was. -/
theorem c7_registry_errors (env : Env) (n : String) (u : Url)
    (ty : Option SourceType) (reg : Registry) :
    (containsName reg n = true →
      addExecute env n u ty reg = Except.error (Err.duplicateName n) ∧
      registryAfter reg (addExecute env n u ty reg) = reg) ∧
    (containsName reg n = false →
      (deleteExecute n reg = Except.error (Err.missingName n) ∧
       registryAfter reg (deleteExecute n reg) = reg) ∧
      (updateExecute env (some n) reg = Except.error (Err.missingName n) ∧
       registryAfter reg (updateExecute env (some n) reg) = reg)) := by
  constructor
  · intro h
    have he : addExecute env n u ty reg = Except.error (Err.duplicateName n) := by
      simp [addExecute, h]
    exact ⟨he, by simp [registryAfter, he]⟩
  · intro h
    have hd : deleteExecute n reg = Except.error (Err.missingName n) := by
      simp [deleteExecute, h]
    have hf := find?_eq_none_of_containsName_false reg n h
    have hu : updateExecute env (some n) reg = Except.error (Err.missingName n) := by
      unfold updateExecute
      simp only [hf]
    exact ⟨⟨hd, by simp [registryAfter, hd]⟩, ⟨hu, by simp [registryAfter, hu]⟩⟩

def c7env : Env :=
  { probe := fun _ => Except.error Err.transport,
    prefetch := fun _ _ _ => Except.error Err.oracleFailure,
    toSri := fun _ => Except.error Err.oracleFailure,
    parseIntegrity := fun _ => none }

def c7url : Url := ⟨"https://example.com/a", some ["a"]⟩

def c7reg : Registry := [("a", Source.new c7url)]

theorem c7_witness :
    addExecute c7env "a" c7url none c7reg = Except.error (Err.duplicateName "a") ∧
    deleteExecute "b" c7reg = Except.error (Err.missingName "b") ∧
    updateExecute c7env (some "b") c7reg = Except.error (Err.missingName "b") :=
  ⟨((c7_registry_errors c7env "a" c7url none c7reg).1 (by decide)).1,
   (((c7_registry_errors c7env "b" c7url none c7reg).2 (by decide)).1).1,
   (((c7_registry_errors c7env "b" c7url none c7reg).2 (by decide)).2).1⟩

/-- Claim C8: a batch update walks the registry in iteration order; if every
source before some entry refreshes successfully and that entry's refresh
fails, the whole invocation returns that failure and the registry file is
left unwritten. -/
theorem c8_batch_first_failure (env : Env) (pre : Registry) (n : String)
    (s : Source) (post : Registry) (e : Err)
    (hpre : ∀ p ∈ pre, ∃ r, refreshSource env p.2 = Except.ok r)
    (hfail : refreshSource env s = Except.error e) :
    updateExecute env none (pre ++ (n, s) :: post) = Except.error e ∧
    registryAfter (pre ++ (n, s) :: post)
      (updateExecute env none (pre ++ (n, s) :: post)) =
      pre ++ (n, s) :: post := by
  have hu : updateAll env (pre ++ (n, s) :: post) = Except.error e := by
    induction pre with
    | nil =>
      simp only [List.nil_append]
      unfold updateAll
      rw [hfail]
    | cons q rest ih =>
      obtain ⟨qn, qs⟩ := q
      obtain ⟨r, hr⟩ := hpre (qn, qs) (List.mem_cons_self _ _)
      simp only [List.cons_append]
      unfold updateAll
      rw [hr, ih (fun p hp => hpre p (List.mem_cons_of_mem _ hp))]
  have he : updateExecute env none (pre ++ (n, s) :: post) = Except.error e := hu
  exact ⟨he, by simp [registryAfter, he]⟩

def c8env : Env :=
  { probe := fun _ => Except.error Err.transport,
    prefetch := fun _ _ _ => Except.error Err.oracleFailure,
    toSri := fun _ => Except.error Err.oracleFailure,
    parseIntegrity := fun _ => none }

def c8src : Source := Source.new ⟨"https://example.com/a", some ["a"]⟩

theorem c8_witness :
    updateExecute c8env none ([] ++ ("a", c8src) :: []) =
      Except.error Err.transport :=
  (c8_batch_first_failure c8env [] "a" c8src [] Err.transport
    (fun p hp => absurd hp (List.not_mem_nil p)) (by decide)).1

/-! ## String lemmas for the RFC-2822 header value -/

theorem strAppend_assoc (a b c : String) : a ++ b ++ c = a ++ (b ++ c) := by
  apply String.ext
  show (a.data ++ b.data) ++ c.data = a.data ++ (b.data ++ c.data)
  exact List.append_assoc _ _ _

theorem toRfc2822_utc (t : DateTime) (h : t.offsetSecs = 0) :
    toRfc2822 t = rfc2822DateTimePart t ++ " +0000" := by
  unfold toRfc2822
  rw [h, strAppend_assoc]
  have hz : (" " : String) ++ rfc2822OffsetPart 0 = " +0000" := by decide
  rw [hz]

theorem strEndsWith_append (a b : String) : strEndsWith (a ++ b) b = true := by
  unfold strEndsWith
  show ((a.data ++ b.data).drop ((a.data ++ b.data).length - b.data.length)
        == b.data) = true
  rw [List.length_append, Nat.add_sub_cancel, List.drop_left]
  exact beq_self_eq_true _

theorem strDropRight_offset (a : String) :
    strDropRight (a ++ " +0000") 6 = a := by
  apply String.ext
  show (a.data ++ (" +0000" : String).data).take
        ((a.data ++ (" +0000" : String).data).length - 6) = a.data
  have h6 : (" +0000" : String).data.length = 6 := by decide
  rw [List.length_append, h6, Nat.add_sub_cancel, List.take_left]

/-- Claim C9: conditional headers are attached to the probe request exactly
when a prior hash exists — then the cached etag goes out verbatim under
`If-None-Match` and the cached last-modified (asserted UTC) goes out under
`If-Modified-Since` as its RFC-2822 rendering with the " +0000" offset
replaced by " GMT"; with no cached hash, no header is ever sent regardless
of cached validators. -/
theorem c9_conditional_headers (s : Source)
    (hutc : ∀ t, s.last_modified = some t → t.offsetSecs = 0) :
    ∃ hs, conditionalHeaders s = Except.ok hs ∧
      (s.hash = none → hs = []) ∧
      (s.hash ≠ none →
        hs.lookup "If-None-Match" = s.etag ∧
        (s.last_modified = none → hs.lookup "If-Modified-Since" = none) ∧
        (∀ t, s.last_modified = some t →
          ∃ d, toRfc2822 t = d ++ " +0000" ∧
            hs.lookup "If-Modified-Since" = some (d ++ " GMT"))) := by
  have kII : (("If-None-Match" : String) == "If-None-Match") = true := by decide
  have kMM : (("If-Modified-Since" : String) == "If-Modified-Since") = true := by
    decide
  have kMI : (("If-Modified-Since" : String) == "If-None-Match") = false := by
    decide
  have kIM : (("If-None-Match" : String) == "If-Modified-Since") = false := by
    decide
  cases hh : s.hash with
  | none =>
    refine ⟨[], ?_, fun _ => rfl, fun hne => absurd rfl hne⟩
    unfold conditionalHeaders
    rw [hh]
  | some h0 =>
    cases hlm : s.last_modified with
    | none =>
      cases he : s.etag with
      | none =>
        refine ⟨[], ?_, fun _ => rfl, ?_⟩
        · unfold conditionalHeaders
          rw [hh, he, hlm]
        · intro _
          exact ⟨rfl, fun _ => rfl, fun t ht => Option.noConfusion ht⟩
      | some e =>
        refine ⟨[("If-None-Match", e)], ?_, ?_, ?_⟩
        · unfold conditionalHeaders
          rw [hh, he, hlm]
        · intro habs
          exact Option.noConfusion habs
        · intro _
          refine ⟨?_, fun _ => rfl, fun t ht => Option.noConfusion ht⟩
          simp [List.lookup, kII]
    | some t0 =>
      have hoff : t0.offsetSecs = 0 := hutc t0 hlm
      have hfmt := toRfc2822_utc t0 hoff
      have hends : strEndsWith (toRfc2822 t0) " +0000" = true := by
        rw [hfmt]
        exact strEndsWith_append _ _
      have hdrop : strDropRight (toRfc2822 t0) 6 = rfc2822DateTimePart t0 := by
        rw [hfmt]
        exact strDropRight_offset _
      cases he : s.etag with
      | none =>
        refine ⟨[("If-Modified-Since",
                  strDropRight (toRfc2822 t0) 6 ++ " GMT")], ?_, ?_, ?_⟩
        · unfold conditionalHeaders
          rw [hh, he, hlm]
          simp [hends]
        · intro habs
          exact Option.noConfusion habs
        · intro _
          refine ⟨?_, ?_, ?_⟩
          · simp [List.lookup, kMI]
          · intro habs
            exact Option.noConfusion habs
          · intro t ht
            cases ht
            refine ⟨rfc2822DateTimePart t0, hfmt, ?_⟩
            rw [hdrop]
            simp [List.lookup, kMM]
      | some e =>
        refine ⟨[("If-None-Match", e),
                 ("If-Modified-Since",
                  strDropRight (toRfc2822 t0) 6 ++ " GMT")], ?_, ?_, ?_⟩
        · unfold conditionalHeaders
          rw [hh, he, hlm]
          simp [hends]
        · intro habs
          exact Option.noConfusion habs
        · intro _
          refine ⟨?_, ?_, ?_⟩
          · simp [List.lookup, kII]
          · intro habs
            exact Option.noConfusion habs
          · intro t ht
            cases ht
            refine ⟨rfc2822DateTimePart t0, hfmt, ?_⟩
            rw [hdrop]
            simp [List.lookup, kMM, kIM]

def c9src : Source :=
  { hash := some "sha256-h", url := ⟨"https://example.com/a", some ["a"]⟩,
    last_modified := some ⟨0, 0⟩, etag := some "abc",
    ty := some SourceType.File }

theorem c9_witness :
    ∃ hs, conditionalHeaders c9src = Except.ok hs ∧
      hs.lookup "If-None-Match" = some "abc" := by
  obtain ⟨hs, h1, _, h3⟩ :=
    c9_conditional_headers c9src (by intro t ht; cases ht; rfl)
  have hne : c9src.hash ≠ none := by
    intro habs
    exact Option.noConfusion habs
  exact ⟨hs, h1, (h3 hne).1⟩

/-! ## Reachability of registries through the program's commands (claim C1) -/

/-- One registry command invocation (with arbitrary network/oracle
behavior) that succeeded and rewrote the registry file. -/
inductive Step : Registry → Registry → Prop where
  | add (env : Env) (n : String) (u : Url) (ty : Option SourceType)
      {reg reg2 : Registry}
      (h : addExecute env n u ty reg = Except.ok reg2) : Step reg reg2
  | update (env : Env) (nm : Option String) {reg reg2 : Registry}
      (h : updateExecute env nm reg = Except.ok reg2) : Step reg reg2
  | del (n : String) {reg reg2 : Registry}
      (h : deleteExecute n reg = Except.ok reg2) : Step reg reg2

/-- Registries reachable from the empty registry through add / update /
delete invocations. -/
inductive Reachable : Registry → Prop where
  | nil : Reachable []
  | step {r r2 : Registry} : Reachable r → Step r r2 → Reachable r2

def c1envA : Env :=
  { probe := fun _ => Except.ok
      { status := 304, etagHeader := none, lastModified := none,
        cdFilename := none },
    prefetch := fun _ _ _ => Except.error Err.oracleFailure,
    toSri := fun _ => Except.error Err.oracleFailure,
    parseIntegrity := fun _ => none }

def c1envB : Env :=
  { probe := fun _ => Except.ok
      { status := 200, etagHeader := none, lastModified := none,
        cdFilename := some "f.txt" },
    prefetch := fun _ _ _ => Except.ok ['h', '\n'],
    toSri := fun _ => Except.ok "sha256-x".data,
    parseIntegrity := fun t => some t }

def c1url : Url := ⟨"https://example.com/f.txt", some ["f.txt"]⟩

def c1srcBad : Source :=
  { hash := some "sha256-x", url := c1url, last_modified := none,
    etag := none, ty := none }

/-- Claim C1, counterexample: a server that answers 304 to the very first
(unconditional) probe makes `add` store a bare record (no hash, no type);
a later `update` then refreshes it on the changed path but writes back only
hash / last-modified / etag, not the inferred classification — the
resulting reachable record has a hash and no classification. -/
theorem c1_counterexample :
    ¬ (∀ r : Registry, Reachable r → ∀ p ∈ r, p.2.hash.isSome = true →
        p.2.ty.isSome = true) := by
  intro h
  have hstep1 : Step [] [("foo", Source.new c1url)] :=
    Step.add c1envA "foo" c1url none (by decide)
  have hstep2 : Step [("foo", Source.new c1url)] [("foo", c1srcBad)] :=
    Step.update c1envB (some "foo") (by decide)
  have hr : Reachable [("foo", c1srcBad)] :=
    Reachable.step (Reachable.step Reachable.nil hstep1) hstep2
  have h2 := h _ hr ("foo", c1srcBad) (by decide) (by decide)
  revert h2
  decide

/-- An HTTP-conformant probe environment: a 304 (not modified) answer is
only ever given to a request that actually carried conditional headers. -/
def SaneEnv (env : Env) : Prop :=
  ∀ hs res, env.probe hs = Except.ok res → res.status = 304 → hs ≠ []

/-- A successful command invocation whose probe environment is
HTTP-conformant. -/
inductive StepS : Registry → Registry → Prop where
  | add (env : Env) (n : String) (u : Url) (ty : Option SourceType)
      {reg reg2 : Registry} (hsane : SaneEnv env)
      (h : addExecute env n u ty reg = Except.ok reg2) : StepS reg reg2
  | update (env : Env) (nm : Option String) {reg reg2 : Registry}
      (hsane : SaneEnv env)
      (h : updateExecute env nm reg = Except.ok reg2) : StepS reg reg2
  | del (n : String) {reg reg2 : Registry}
      (h : deleteExecute n reg = Except.ok reg2) : StepS reg reg2

/-- Registries reachable from empty through HTTP-conformant invocations. -/
inductive ReachableS : Registry → Prop where
  | nil : ReachableS []
  | step {r r2 : Registry} : ReachableS r → StepS r r2 → ReachableS r2

theorem hash_isSome_of_headers_ne_nil (s : Source)
    (hs : List (String × String))
    (hch : conditionalHeaders s = Except.ok hs) (hne : hs ≠ []) :
    s.hash.isSome = true := by
  cases hh : s.hash with
  | none =>
    unfold conditionalHeaders at hch
    rw [hh] at hch
    cases hch
    exact absurd rfl hne
  | some h0 => rfl

/-- Outcome shape of a successful refresh against a conformant probe:
either the changed path ran to completion (the result carries a fresh hash
and a resolved type), or the unchanged path returned the input — which then
must already have had a hash, since a 304 implies conditional headers were
sent. -/
theorem refresh_ok_cases (env : Env) (s s2 : Source) (hsane : SaneEnv env)
    (h : refreshSource env s = Except.ok s2) :
    (s2.hash.isSome = true ∧ s2.ty.isSome = true) ∨
    (s2 = s ∧ s.hash.isSome = true) := by
  unfold refreshSource at h
  cases hch : conditionalHeaders s with
  | error e =>
    simp only [hch] at h
    exact Except.noConfusion h
  | ok hs =>
    simp only [hch] at h
    cases hp : env.probe hs with
    | error e =>
      simp only [hp] at h
      exact Except.noConfusion h
    | ok res =>
      simp only [hp] at h
      by_cases h304 : res.status = 304
      · rw [if_pos h304] at h
        cases h
        exact Or.inr ⟨rfl, hash_isSome_of_headers_ne_nil s hs hch
          (hsane hs res hp h304)⟩
      · rw [if_neg h304] at h
        split at h
        · exact Except.noConfusion h
        · split at h
          · exact Except.noConfusion h
          · split at h
            · exact Except.noConfusion h
            · cases h
              exact Or.inl ⟨rfl, rfl⟩

/-- Every record of a registry has both a cached hash and a resolved
classification. -/
def StrongInv (r : Registry) : Prop :=
  ∀ p ∈ r, p.2.hash.isSome = true ∧ p.2.ty.isSome = true

theorem strongInv_add (env : Env) (n : String) (u : Url)
    (ty : Option SourceType) (reg reg2 : Registry) (hsane : SaneEnv env)
    (h : addExecute env n u ty reg = Except.ok reg2)
    (hinv : StrongInv reg) : StrongInv reg2 := by
  unfold addExecute at h
  split at h
  · exact Except.noConfusion h
  · cases hr : refreshSource env (Source.new u) with
    | error e =>
      rw [hr] at h
      exact Except.noConfusion h
    | ok s =>
      rw [hr] at h
      cases h
      intro p hp
      rcases List.mem_append.mp hp with hmem | hmem
      · exact hinv p hmem
      · have hps : p = (n, s) := by simpa using hmem
        subst hps
        rcases refresh_ok_cases env (Source.new u) s hsane hr with hcase | hcase
        · exact hcase
        · exact absurd hcase.2 (by simp [Source.new])

theorem strongInv_updateSingle (env : Env) (n : String) (reg reg2 : Registry)
    (hsane : SaneEnv env)
    (h : updateExecute env (some n) reg = Except.ok reg2)
    (hinv : StrongInv reg) : StrongInv reg2 := by
  unfold updateExecute at h
  cases hf : reg.find? (fun p => p.1 = n) with
  | none =>
    simp only [hf] at h
    exact Except.noConfusion h
  | some p0 =>
    simp only [hf] at h
    cases hr : refreshSource env p0.2 with
    | error e =>
      simp only [hr] at h
      exact Except.noConfusion h
    | ok ns =>
      simp only [hr] at h
      cases h
      have hp0 : p0 ∈ reg := List.mem_of_find?_eq_some hf
      have hns : ns.hash.isSome = true := by
        rcases refresh_ok_cases env p0.2 ns hsane hr with hcase | hcase
        · exact hcase.1
        · rw [hcase.1]
          exact (hinv p0 hp0).1
      intro q hq
      rcases List.mem_map.mp hq with ⟨q0, hq0, hfq⟩
      by_cases hname : q0.1 = n
      · rw [if_pos hname] at hfq
        rw [← hfq]
        exact ⟨hns, (hinv q0 hq0).2⟩
      · rw [if_neg hname] at hfq
        rw [← hfq]
        exact hinv q0 hq0

theorem strongInv_updateAll (env : Env) (hsane : SaneEnv env) :
    ∀ reg reg2 : Registry, StrongInv reg →
      updateAll env reg = Except.ok reg2 → StrongInv reg2 := by
  intro reg
  induction reg with
  | nil =>
    intro reg2 hinv h
    unfold updateAll at h
    cases h
    intro p hp
    exact absurd hp (List.not_mem_nil p)
  | cons q rest ih =>
    intro reg2 hinv h
    obtain ⟨qn, qs⟩ := q
    unfold updateAll at h
    cases hr : refreshSource env qs with
    | error e =>
      simp only [hr] at h
      exact Except.noConfusion h
    | ok ns =>
      simp only [hr] at h
      cases hrest : updateAll env rest with
      | error e =>
        simp only [hrest] at h
        exact Except.noConfusion h
      | ok rest2 =>
        simp only [hrest] at h
        cases h
        have hq := hinv (qn, qs) (List.mem_cons_self _ _)
        intro p hp
        rcases List.mem_cons.mp hp with hpe | hpm
        · subst hpe
          have hns : ns.hash.isSome = true := by
            rcases refresh_ok_cases env qs ns hsane hr with hcase | hcase
            · exact hcase.1
            · rw [hcase.1]
              exact hq.1
          exact ⟨hns, hq.2⟩
        · exact ih rest2
            (fun p2 hp2 => hinv p2 (List.mem_cons_of_mem _ hp2)) hrest p hpm

theorem strongInv_delete (n : String) (reg reg2 : Registry)
    (h : deleteExecute n reg = Except.ok reg2) (hinv : StrongInv reg) :
    StrongInv reg2 := by
  unfold deleteExecute at h
  split at h
  · cases h
    intro p hp
    exact hinv p (List.mem_of_mem_filter hp)
  · exact Except.noConfusion h

theorem stepS_strongInv {r r2 : Registry} (h : StepS r r2)
    (hinv : StrongInv r) : StrongInv r2 := by
  cases h with
  | add env n u ty hsane hadd =>
    exact strongInv_add env n u ty _ _ hsane hadd hinv
  | update env nm hsane hup =>
    cases nm with
    | some n => exact strongInv_updateSingle env n _ _ hsane hup hinv
    | none => exact strongInv_updateAll env hsane _ _ hinv hup
  | del n hdel => exact strongInv_delete n _ _ hdel hinv

theorem reachableS_strongInv {r : Registry} (h : ReachableS r) :
    StrongInv r := by
  induction h with
  | nil =>
    intro p hp
    exact absurd hp (List.not_mem_nil p)
  | step hr hs ih => exact stepS_strongInv hs ih

/-- Claim C1, amended: assuming every probe answer is HTTP-conformant (a
304 is only returned to a request that carried conditional headers), every
record of a registry reachable through add / update / delete that has a
cached hash also has a resolved classification — in fact the refresh on
the changed path produces hash and classification together
(`refresh_ok_cases`), and the update write-back preserves the existing
classification. -/
theorem c1_amended_hash_implies_classification (r : Registry)
    (hreach : ReachableS r) :
    ∀ p ∈ r, p.2.hash.isSome = true → p.2.ty.isSome = true :=
  fun p hp _ => (reachableS_strongInv hreach p hp).2

def c1wEnv : Env :=
  { probe := fun _ => Except.ok
      { status := 200, etagHeader := some "etag1", lastModified := none,
        cdFilename := some "pkg.tar.gz" },
    prefetch := fun _ _ _ => Except.ok "hashhash\n".data,
    toSri := fun _ => Except.ok " sha256-abc \n".data,
    parseIntegrity := fun t => some t }

theorem c1wEnv_sane : SaneEnv c1wEnv := by
  intro hs res hp h304
  cases hp
  exact absurd h304 (by decide)

def c1wUrl : Url := ⟨"https://example.com/x", some ["x"]⟩

def c1wOut : Source :=
  { hash := some "sha256-abc", url := c1wUrl, last_modified := none,
    etag := some "etag1", ty := some SourceType.Tarball }

theorem c1_witness : c1wOut.ty.isSome = true :=
  c1_amended_hash_implies_classification [("foo", c1wOut)]
    (ReachableS.step ReachableS.nil
      (StepS.add c1wEnv "foo" c1wUrl none c1wEnv_sane (by decide)))
    ("foo", c1wOut) (by decide) (by decide)

theorem c6_witness :
    trimNlCore ('a' :: 'b' :: 'c' :: ['\n']) = ['a', 'b', 'c'] ∧
    trimNlCore ['a', 'b', 'c'] = ['a', 'b', 'c'] ∧
    trimNlCore ('x' :: '\n' :: ['\n']) = ['x', '\n'] := by
  refine ⟨?_, ?_, ?_⟩
  · exact c6_trim_newline.1 ['a', 'b', 'c']
  · exact c6_trim_newline.2.1 ['a', 'b', 'c'] (by decide)
  · exact c6_trim_newline.2.2 ['x']

end NixSource
